/-
Verification of the histogram engine and DEM grid builder from
`stereo/src/digital_elevation_map.cpp` (PCL digital elevation map module).

Shallow embedding conventions:
* C++ `float` values are modelled as exact rationals (`ℚ`); all arithmetic
  claims of the spec are algebraic, so the rational model is the reference
  semantics for them.
* `size_t` / `unsigned` become `ℕ`; `static_cast<size_t>` of a nonnegative
  quotient is truncation, modelled by `Int.toNat ∘ Int.floor`.
* `std::vector` becomes `List`; the C++ out-of-bounds write
  `++histogram_[bin]` that can occur for a zero-bin histogram leaves the
  vector's elements unchanged (the vector itself holds no bin), which the
  list model renders as a no-op update.
* The external collaborator `translateCoordinates` is an opaque oracle,
  passed to `compute` as a function argument.
-/
import Mathlib

namespace DigitalElevationMap

/-- Truncation of a nonnegative rational to a natural number: models
`static_cast<size_t>` applied to a nonnegative C++ float expression. -/
def ratFloorNat (q : ℚ) : ℕ := (⌊q⌋).toNat

/-- In-place update of one list element, models `++histogram_[n]`-style
writes; an out-of-range index leaves the list unchanged. -/
def listModify (f : α → α) : ℕ → List α → List α
  | _, [] => []
  | 0, x :: xs => f x :: xs
  | n + 1, x :: xs => x :: listModify f n xs

/-- State of the C++ class `FeatureHistogram`: a fixed vector of bin
counters, the acceptance thresholds, the bin width `step_` and the number
of inserted elements. -/
structure FeatureHistogram where
  histogram : List ℕ
  threshold_min : ℚ
  threshold_max : ℚ
  step : ℚ
  number_of_elements : ℕ
  number_of_bins : ℕ
  deriving DecidableEq, Repr

namespace FeatureHistogram

/-- `FeatureHistogram::FeatureHistogram(size_t number_of_bins)`:
zeroed counters, range `[0, number_of_bins)`, unit bin width. -/
def construct (number_of_bins : ℕ) : FeatureHistogram where
  histogram := List.replicate number_of_bins 0
  threshold_min := 0
  threshold_max := (number_of_bins : ℚ)
  step := 1
  number_of_elements := 0
  number_of_bins := number_of_bins

/-- `FeatureHistogram::setThresholds(float min, float max)`: updates the
range and recomputes the bin width only when `min < max`; otherwise the
call only emits a diagnostic and mutates nothing. -/
def setThresholds (h : FeatureHistogram) (mn mx : ℚ) : FeatureHistogram :=
  if mn < mx then
    { h with threshold_min := mn, threshold_max := mx,
             step := (mx - mn) / (h.number_of_bins : ℚ) }
  else
    h

/-- `FeatureHistogram::getThresholdMin()`. -/
def getThresholdMin (h : FeatureHistogram) : ℚ := h.threshold_min

/-- `FeatureHistogram::getThresholdMax()`. -/
def getThresholdMax (h : FeatureHistogram) : ℚ := h.threshold_max

/-- `FeatureHistogram::getNumberOfElements()`. -/
def getNumberOfElements (h : FeatureHistogram) : ℕ := h.number_of_elements

/-- `FeatureHistogram::getNumberOfBins()`. -/
def getNumberOfBins (h : FeatureHistogram) : ℕ := h.number_of_bins

/-- `FeatureHistogram::addValue(float value)`: a value strictly inside the
open range increments the element count and the bin
`static_cast<size_t>((value - threshold_min_) / step_)`; any other value
is dropped. -/
def addValue (h : FeatureHistogram) (value : ℚ) : FeatureHistogram :=
  if h.threshold_min < value ∧ value < h.threshold_max then
    let bin_number := ratFloorNat ((value - h.threshold_min) / h.step)
    { h with number_of_elements := h.number_of_elements + 1,
             histogram := listModify (fun c => c + 1) bin_number h.histogram }
  else
    h

/-- Index that `std::max_element` reports on the bin vector: the first
occurrence of the maximal counter (`0` for an empty vector, as
`max_element` then returns `begin`). -/
def argmaxFirst (l : List ℕ) : ℕ := l.indexOf (l.foldr max 0)

/-- `FeatureHistogram::meanValue()`: representative value of the first
maximal bin. -/
def meanValue (h : FeatureHistogram) : ℚ :=
  h.step * (argmaxFirst h.histogram : ℚ) + h.threshold_min

/-- `FeatureHistogram::variance(float mean)`: `-1` for an empty histogram,
otherwise the accumulated squared deviations of `count * bin_value` from
`mean`, over non-empty bins, divided by the element count. -/
def variance (h : FeatureHistogram) (mean : ℚ) : ℚ :=
  if h.number_of_elements = 0 then
    -1
  else
    let variances_sum :=
      (List.range h.number_of_bins).foldl
        (fun variances_sum bin =>
          if 0 < h.histogram.getD bin 0 then
            let value := h.step * (bin : ℚ) + h.threshold_min
            let dif := (h.histogram.getD bin 0 : ℚ) * value - mean
            variances_sum + dif * dif
          else
            variances_sum)
        0
    variances_sum / (h.number_of_elements : ℚ)

/-- Histogram states reachable through the public interface: construction
followed by any sequence of `setThresholds` and `addValue` calls. -/
inductive Reachable : FeatureHistogram → Prop
  | construct (n : ℕ) : Reachable (construct n)
  | set_thresholds (h : FeatureHistogram) (mn mx : ℚ) :
      Reachable h → Reachable (h.setThresholds mn mx)
  | add_value (h : FeatureHistogram) (v : ℚ) :
      Reachable h → Reachable (h.addValue v)

/-- Structural invariant of every histogram state reachable through the
public interface. -/
def Inv (h : FeatureHistogram) : Prop :=
  h.histogram.length = h.number_of_bins ∧
  0 ≤ h.step ∧
  (0 < h.number_of_elements → h.threshold_min < h.threshold_max) ∧
  (0 < h.number_of_bins →
    h.threshold_min < h.threshold_max ∧
    h.step = (h.threshold_max - h.threshold_min) / (h.number_of_bins : ℚ) ∧
    h.histogram.sum = h.number_of_elements)

end FeatureHistogram

/-- A 3-channel color pixel (`pcl::RGB`); channels are 8-bit unsigned
values, modelled as naturals. -/
structure RGB where
  r : ℕ
  g : ℕ
  b : ℕ
  deriving DecidableEq, Repr

/-- Result of the external collaborator `translateCoordinates`. -/
structure PointXYZ where
  x : ℚ
  y : ℚ
  z : ℚ
  deriving DecidableEq, Repr

/-- One output DEM grid cell (`pcl::PointDEM`). -/
structure PointDEM where
  x : ℚ
  y : ℚ
  z : ℚ
  intensity : ℚ
  height_variance : ℚ
  intensity_variance : ℚ
  deriving DecidableEq, Repr

/-- The stereo-geometry oracle `translateCoordinates(row, column,
disparity)`, treated as an opaque pure function. -/
def Translate : Type := ℕ → ℕ → ℚ → PointXYZ

/-- The output point cloud: an organized grid whose flat storage is
row-major, `at(col, row) = points[row * width + col]`.  A `none` entry is
a cell that `compute` allocated (via `resize`) but never wrote. -/
structure Cloud where
  width : ℕ
  height : ℕ
  points : List (Option PointDEM)
  deriving DecidableEq, Repr

/-- Configuration and input state of `DigitalElevationMapBuilder`
(including the fields inherited from `DisparityMapConverter`: disparity
buffer, image, dimensions and disparity thresholds). -/
structure DigitalElevationMapBuilder where
  resolution_column : ℕ
  resolution_disparity : ℕ
  min_points_in_cell : ℕ
  disparity_map_width : ℕ
  disparity_map_height : ℕ
  disparity_map : List ℚ
  image : Option (List RGB)
  disparity_threshold_min : ℚ
  disparity_threshold_max : ℚ

namespace DigitalElevationMapBuilder

/-- Height-histogram prototype of `compute`: range `[-0.5, 1.5]`,
`(1.5 - (-0.5)) / 0.01 = 200` bins. -/
def height_histogram_example : FeatureHistogram :=
  (FeatureHistogram.construct (ratFloorNat ((3/2 - (-1/2 : ℚ)) / (1/100)))).setThresholds
    (-1/2) (3/2)

/-- Intensity-histogram prototype of `compute`: range `[0, 255]`,
256 bins. -/
def intensity_histogram_example : FeatureHistogram :=
  (FeatureHistogram.construct 256).setThresholds 0 255

/-- The constant `kColumnStep` of `compute`:
`(disparity_map_width_ - 1) / resolution_column_ + 1` in `size_t`
arithmetic. -/
def kColumnStepOf (b : DigitalElevationMapBuilder) : ℕ :=
  (b.disparity_map_width - 1) / b.resolution_column + 1

/-- The constant `kDisparityStep` of `compute`:
`(disparity_threshold_max_ - disparity_threshold_min_) /
resolution_disparity_`. -/
def kDisparityStepOf (b : DigitalElevationMapBuilder) : ℚ :=
  (b.disparity_threshold_max - b.disparity_threshold_min) /
    (b.resolution_disparity : ℚ)

/-- One iteration of the accumulation loop of `compute` for the pixel
`(column, row)`: a disparity strictly inside the acceptance window routes
the pixel's height and intensity into the histogram pair at flat index
`column / kColumnStep + index_disparity * resolution_column_`; any other
pixel leaves every histogram unchanged. -/
def accumStep (b : DigitalElevationMapBuilder) (translate : Translate)
    (img : List RGB) (kColumnStep : ℕ) (kDisparityStep : ℚ)
    (hists : List FeatureHistogram × List FeatureHistogram)
    (pix : ℕ × ℕ) : List FeatureHistogram × List FeatureHistogram :=
  let column := pix.1
  let row := pix.2
  let disparity := b.disparity_map.getD (column + row * b.disparity_map_width) 0
  if b.disparity_threshold_min < disparity ∧
      disparity < b.disparity_threshold_max then
    let point_3D := translate row column disparity
    let height := point_3D.y
    let point_RGB := img.getD (column + row * b.disparity_map_width) ⟨0, 0, 0⟩
    let intensity : ℚ := ((point_RGB.r + point_RGB.g + point_RGB.b) / 3 : ℕ)
    let index_column := column / kColumnStep
    let index_disparity :=
      ratFloorNat ((disparity - b.disparity_threshold_min) / kDisparityStep)
    let index := index_column + index_disparity * b.resolution_column
    (listModify (fun h => h.addValue height) index hists.1,
     listModify (fun h => h.addValue intensity) index hists.2)
  else
    hists

/-- The pixel traversal order of `compute`: outer loop over columns, inner
loop over rows. -/
def pixelOrder (b : DigitalElevationMapBuilder) : List (ℕ × ℕ) :=
  (List.range b.disparity_map_width).flatMap
    (fun column => (List.range b.disparity_map_height).map
      (fun row => (column, row)))

/-- The two histogram vectors (heights, intensities) at the end of the
accumulation pass of `compute`. -/
def accumulatedHists (b : DigitalElevationMapBuilder) (translate : Translate)
    (img : List RGB) : List FeatureHistogram × List FeatureHistogram :=
  (b.pixelOrder).foldl
    (accumStep b translate img (kColumnStepOf b) (kDisparityStepOf b))
    (List.replicate (b.resolution_column * b.resolution_disparity)
       height_histogram_example,
     List.replicate (b.resolution_column * b.resolution_disparity)
       intensity_histogram_example)

/-- Body of the reduction loop of `compute` for the cell
`(index_column, index_disparity)`: the cell is filled from its histogram
pair iff the height histogram holds at least `min_points_in_cell_`
elements, and from the invalid-cell defaults otherwise. -/
def reduceCell (b : DigitalElevationMapBuilder) (translate : Translate)
    (kColumnStep : ℕ) (kDisparityStep : ℚ)
    (hists : List FeatureHistogram × List FeatureHistogram)
    (index_column index_disparity : ℕ) : PointDEM :=
  let index := index_column + index_disparity * b.resolution_column
  let column := index_column * kColumnStep
  let disparity :=
    b.disparity_threshold_min + (index_disparity : ℚ) * kDisparityStep
  let point_3D := translate 0 column disparity
  let height_hist := hists.1.getD index (FeatureHistogram.construct 0)
  let intensity_hist := hists.2.getD index (FeatureHistogram.construct 0)
  if b.min_points_in_cell ≤ height_hist.getNumberOfElements then
    let y := height_hist.meanValue
    let intensity := intensity_hist.meanValue
    { x := point_3D.x, y := y, z := point_3D.z,
      intensity := intensity,
      height_variance := height_hist.variance y,
      intensity_variance := intensity_hist.variance intensity }
  else
    { x := point_3D.x, y := 0, z := point_3D.z,
      intensity := 255,
      height_variance := -1,
      intensity_variance := -1 }

/-- Return value of `DigitalElevationMapBuilder::compute(out_cloud)`:
the cloud the out-parameter points to after the call (it is re-assigned
to a freshly allocated, resized cloud at function entry, before the image
precondition is checked), and whether the missing-image error was
reported.  The reduction double loop writes each flat position
`index_column + index_disparity * width` exactly once, so its net effect
is the flat-range map below. -/
def compute (b : DigitalElevationMapBuilder) (translate : Translate) :
    Cloud × Bool :=
  let kNumberOfHistograms := b.resolution_column * b.resolution_disparity
  match b.image with
  | none =>
      (⟨b.resolution_column, b.resolution_disparity,
        List.replicate kNumberOfHistograms none⟩, true)
  | some img =>
      let hists := b.accumulatedHists translate img
      let cells := (List.range kNumberOfHistograms).map
        (fun index => some (b.reduceCell translate (kColumnStepOf b)
          (kDisparityStepOf b) hists
          (index % b.resolution_column) (index / b.resolution_column)))
      (⟨b.resolution_column, b.resolution_disparity, cells⟩, false)

/-- The observable effect of `compute` on the caller's out-parameter: the
prior pointee is discarded unconditionally and replaced by the freshly
produced cloud. -/
def computeUpd (b : DigitalElevationMapBuilder) (translate : Translate)
    (_prior : Option Cloud) : Option Cloud × Bool :=
  (some (compute b translate).1, (compute b translate).2)

/-- Number of accumulation-pass samples accepted by the disparity window
and routed to the flat cell `index` (spec-side notion used by the
claimed cell-validity invariant). -/
def acceptedCount (b : DigitalElevationMapBuilder) (index : ℕ) : ℕ :=
  (b.pixelOrder).countP (fun pix =>
    decide (
      let disparity :=
        b.disparity_map.getD (pix.1 + pix.2 * b.disparity_map_width) 0
      b.disparity_threshold_min < disparity ∧
      disparity < b.disparity_threshold_max ∧
      pix.1 / kColumnStepOf b +
        ratFloorNat
            ((disparity - b.disparity_threshold_min) / kDisparityStepOf b) *
          b.resolution_column = index))

end DigitalElevationMapBuilder

/-- A 4-bin histogram over the range `(0, 4)`, used as concrete input by
witnesses. -/
def exampleHist : FeatureHistogram :=
  (FeatureHistogram.construct 4).setThresholds 0 4

/-- The zero-bin histogram trace behind the C4 counterexample:
constructed with 0 bins, thresholds successfully set to `(0, 1)`, then an
in-range value added. -/
def zeroBinTrace : FeatureHistogram :=
  ((FeatureHistogram.construct 0).setThresholds 0 1).addValue (1/2)

/-- The coordinate oracle that maps every pixel to the origin. -/
def zeroTranslate : Translate := fun _ _ _ => ⟨0, 0, 0⟩

/-- A coordinate oracle whose height (`y`) is always `1/2`, strictly
inside the height histogram's `(-0.5, 1.5)` range. -/
def constHalfTranslate : Translate := fun _ _ _ => ⟨0, 1/2, 0⟩

/-- A 1×1-cell builder over a 1×1 disparity map with no image source
attached. -/
def noImageBuilder : DigitalElevationMapBuilder where
  resolution_column := 1
  resolution_disparity := 1
  min_points_in_cell := 1
  disparity_map_width := 1
  disparity_map_height := 1
  disparity_map := [1]
  image := none
  disparity_threshold_min := 0
  disparity_threshold_max := 4

/-- A 1×1-cell builder over a 1×1 disparity map whose single pixel has
in-window disparity 1 and a black color, with the default
`min_points_in_cell = 1`. -/
def blackPixelBuilder : DigitalElevationMapBuilder where
  resolution_column := 1
  resolution_disparity := 1
  min_points_in_cell := 1
  disparity_map_width := 1
  disparity_map_height := 1
  disparity_map := [1]
  image := some [⟨0, 0, 0⟩]
  disparity_threshold_min := 0
  disparity_threshold_max := 4

/-- A 1×1-cell builder over a 1×1 all-background disparity map: the
single disparity value 0 does not exceed `disparity_threshold_min = 0`. -/
def backgroundBuilder : DigitalElevationMapBuilder where
  resolution_column := 1
  resolution_disparity := 1
  min_points_in_cell := 1
  disparity_map_width := 1
  disparity_map_height := 1
  disparity_map := [0]
  image := some [⟨0, 0, 0⟩]
  disparity_threshold_min := 0
  disparity_threshold_max := 4

theorem length_listModify (f : α → α) (n : ℕ) (l : List α) :
    (listModify f n l).length = l.length := by
  induction l generalizing n with
  | nil => cases n <;> rfl
  | cons x xs ih =>
    cases n with
    | zero => rfl
    | succ m => simpa [listModify] using ih m

theorem getD_listModify_ne (f : α → α) (n j : ℕ) (l : List α) (d : α)
    (hne : j ≠ n) : (listModify f n l).getD j d = l.getD j d := by
  induction l generalizing n j with
  | nil => cases n <;> rfl
  | cons x xs ih =>
    cases n with
    | zero =>
      cases j with
      | zero => exact absurd rfl hne
      | succ i => rfl
    | succ m =>
      cases j with
      | zero => rfl
      | succ i => simpa [listModify] using ih m i (fun h => hne (by omega))

theorem getD_listModify_self (f : α → α) (n : ℕ) (l : List α) (d : α)
    (hn : n < l.length) : (listModify f n l).getD n d = f (l.getD n d) := by
  induction l generalizing n with
  | nil => simp at hn
  | cons x xs ih =>
    cases n with
    | zero => rfl
    | succ m => simpa [listModify] using ih m (by simpa using hn)

theorem sum_listModify_add_one (n : ℕ) (l : List ℕ) (hn : n < l.length) :
    (listModify (fun c => c + 1) n l).sum = l.sum + 1 := by
  induction l generalizing n with
  | nil => simp at hn
  | cons x xs ih =>
    cases n with
    | zero => simp [listModify]; omega
    | succ m =>
      have := ih m (by simpa using hn)
      simp only [listModify, List.sum_cons, this]
      omega

theorem sum_listModify_oob (n : ℕ) (l : List ℕ) (hn : l.length ≤ n) :
    (listModify (fun c => c + 1) n l).sum = l.sum := by
  induction l generalizing n with
  | nil => cases n <;> rfl
  | cons x xs ih =>
    cases n with
    | zero => simp at hn
    | succ m =>
      have := ih m (by simpa using hn)
      simp only [listModify, List.sum_cons, this]

theorem getD_mem (l : List α) (j : ℕ) (d : α) (hj : j < l.length) :
    l.getD j d ∈ l := by
  rw [List.getD_eq_getElem l d hj]
  exact List.getElem_mem hj

theorem getD_replicate_of_lt (n i : ℕ) (a d : α) (h : i < n) :
    (List.replicate n a).getD i d = a := by
  rw [List.getD_eq_getElem _ _ (by simpa using h)]
  simp

theorem getD_map_range (f : ℕ → α) (n i : ℕ) (d : α) (h : i < n) :
    ((List.range n).map f).getD i d = f i := by
  rw [List.getD_eq_getElem _ _ (by simpa using h)]
  simp

theorem foldl_fixed (f : α → β → α) (l : List β)
    (hf : ∀ a, ∀ x ∈ l, f a x = a) : ∀ a, l.foldl f a = a := by
  induction l with
  | nil => intro a; rfl
  | cons x xs ih =>
    intro a
    rw [List.foldl_cons, hf a x (by simp)]
    exact ih (fun a y hy => hf a y (by simp [hy])) a

theorem foldl_add_range (g : ℕ → ℚ) (a : ℚ) (n : ℕ) :
    (List.range n).foldl (fun acc i => acc + g i) a =
      a + ∑ i ∈ Finset.range n, g i := by
  induction n with
  | zero => simp
  | succ m ih =>
    rw [List.range_succ, List.foldl_append, ih, Finset.sum_range_succ]
    simp [List.foldl]
    ring

theorem foldr_max_mem (l : List ℕ) (hl : l ≠ []) : l.foldr max 0 ∈ l := by
  induction l with
  | nil => exact absurd rfl hl
  | cons x xs ih =>
    cases xs with
    | nil => simp
    | cons y ys =>
      rcases max_choice x ((y :: ys).foldr max 0) with h | h
      · rw [List.foldr_cons, h]
        exact List.mem_cons_self x _
      · rw [List.foldr_cons, h]
        exact List.mem_cons_of_mem _ (ih (by simp))

theorem le_foldr_max (l : List ℕ) : ∀ x ∈ l, x ≤ l.foldr max 0 := by
  induction l with
  | nil => simp
  | cons y ys ih =>
    intro x hx
    rw [List.foldr_cons]
    rcases List.mem_cons.1 hx with rfl | hx
    · exact le_max_left _ _
    · exact le_trans (ih x hx) (le_max_right _ _)

theorem foldr_max_zero (l : List ℕ) (hz : ∀ x ∈ l, x = 0) :
    l.foldr max 0 = 0 := by
  induction l with
  | nil => rfl
  | cons y ys ih =>
    rw [List.foldr_cons, hz y (by simp),
        ih (fun x hx => hz x (by simp [hx]))]
    simp

theorem getD_ne_of_lt_indexOf (l : List ℕ) (a : ℕ) (j : ℕ)
    (hj : j < l.length) (hlt : j < l.indexOf a) : l.getD j 0 ≠ a := by
  induction l generalizing j with
  | nil => simp at hj
  | cons x xs ih =>
    by_cases hx : x = a
    · rw [List.indexOf_cons_eq xs hx] at hlt
      omega
    · rw [List.indexOf_cons_ne xs hx] at hlt
      cases j with
      | zero => simpa using hx
      | succ i => exact ih i (by simpa using hj) (by omega)


namespace FeatureHistogram

theorem inv_construct (n : ℕ) : Inv (construct n) := by
  refine ⟨by simp [construct], by norm_num [construct], ?_, ?_⟩
  · intro h0
    simp [construct] at h0
  · intro hn
    have hn0 : 0 < n := by simpa [construct] using hn
    have hn' : ((n : ℚ)) ≠ 0 := by exact_mod_cast hn0.ne'
    refine ⟨?_, ?_, by simp [construct]⟩
    · show (0 : ℚ) < (n : ℚ)
      exact_mod_cast hn0
    · show (1 : ℚ) = ((n : ℚ) - 0) / (n : ℚ)
      rw [sub_zero, div_self hn']

theorem inv_setThresholds (h : FeatureHistogram) (mn mx : ℚ) (hInv : Inv h) :
    Inv (h.setThresholds mn mx) := by
  unfold setThresholds
  split
  case isTrue hlt =>
    obtain ⟨h1, _, _, h4⟩ := hInv
    refine ⟨h1, ?_, fun _ => hlt, fun hb => ⟨hlt, rfl, (h4 hb).2.2⟩⟩
    exact div_nonneg (by linarith) (Nat.cast_nonneg _)
  case isFalse => exact hInv

theorem inv_addValue (h : FeatureHistogram) (v : ℚ) (hInv : Inv h) :
    Inv (h.addValue v) := by
  unfold addValue
  split
  case isTrue hv =>
    obtain ⟨h1, h2, _, h4⟩ := hInv
    obtain ⟨hv1, hv2⟩ := hv
    have hminmax : h.threshold_min < h.threshold_max := hv1.trans hv2
    refine ⟨by simpa [length_listModify] using h1, h2, fun _ => hminmax, ?_⟩
    intro hb
    obtain ⟨_, hstep, hsum⟩ := h4 hb
    have hstep_pos : 0 < h.step := by
      rw [hstep]
      exact div_pos (by linarith) (by exact_mod_cast hb)
    have hbin : ratFloorNat ((v - h.threshold_min) / h.step) <
        h.number_of_bins := by
      have hq : (v - h.threshold_min) / h.step < (h.number_of_bins : ℚ) := by
        rw [div_lt_iff₀ hstep_pos]
        have heq : h.threshold_max - h.threshold_min =
            h.step * (h.number_of_bins : ℚ) := by
          rw [hstep]
          field_simp
        nlinarith [heq]
      have hfl : ⌊(v - h.threshold_min) / h.step⌋ < (h.number_of_bins : ℤ) :=
        Int.floor_lt.2 (by exact_mod_cast hq)
      have hq0 : (0 : ℤ) ≤ ⌊(v - h.threshold_min) / h.step⌋ :=
        Int.floor_nonneg.2 (div_nonneg (by linarith) hstep_pos.le)
      show (⌊(v - h.threshold_min) / h.step⌋).toNat < h.number_of_bins
      omega
    refine ⟨hminmax, hstep, ?_⟩
    rw [sum_listModify_add_one _ _ (by rw [h1]; exact hbin), hsum]
  case isFalse => exact hInv

theorem reachable_inv {h : FeatureHistogram} (hr : Reachable h) : Inv h := by
  induction hr with
  | construct n => exact inv_construct n
  | set_thresholds h mn mx _ ih => exact inv_setThresholds h mn mx ih
  | add_value h v _ ih => exact inv_addValue h v ih

theorem argmaxFirst_lt_length (l : List ℕ) (hl : l ≠ []) :
    argmaxFirst l < l.length :=
  List.indexOf_lt_length.2 (foldr_max_mem l hl)

theorem getD_argmaxFirst (l : List ℕ) (hl : l ≠ []) :
    l.getD (argmaxFirst l) 0 = l.foldr max 0 := by
  have hlt := argmaxFirst_lt_length l hl
  unfold argmaxFirst at *
  rw [List.getD_eq_getElem _ _ hlt]
  exact List.getElem_indexOf hlt

theorem argmaxFirst_zero_of_all_zero (l : List ℕ) (hz : ∀ x ∈ l, x = 0) :
    argmaxFirst l = 0 := by
  unfold argmaxFirst
  rw [foldr_max_zero l hz]
  cases l with
  | nil => rfl
  | cons x xs => exact List.indexOf_cons_eq xs (hz x (by simp))

/-- `variance` on an empty histogram is the sentinel `-1`. -/
theorem variance_of_empty (h : FeatureHistogram) (mean : ℚ)
    (hc : h.number_of_elements = 0) : h.variance mean = -1 := by
  unfold variance
  rw [if_pos hc]

/-- `variance` on a non-empty histogram equals the count-weighted spread
formula of the source, written as a closed summation. -/
theorem variance_eq_sum (h : FeatureHistogram) (mean : ℚ)
    (hc : h.number_of_elements ≠ 0) :
    h.variance mean =
      (∑ bin ∈ Finset.range h.number_of_bins,
        if 0 < h.histogram.getD bin 0 then
          ((h.histogram.getD bin 0 : ℚ) *
              (h.step * (bin : ℚ) + h.threshold_min) - mean) ^ 2
        else 0) / (h.number_of_elements : ℚ) := by
  unfold variance
  rw [if_neg hc]
  rw [List.foldl_ext _
      (fun acc bin =>
        acc + (if 0 < h.histogram.getD bin 0 then
          ((h.histogram.getD bin 0 : ℚ) *
              (h.step * (bin : ℚ) + h.threshold_min) - mean) ^ 2
        else 0)) 0
      (fun acc bin _ => by
        by_cases hb : 0 < h.histogram.getD bin 0
        · simp only [if_pos hb]
          ring
        · simp only [if_neg hb]
          ring)]
  rw [foldl_add_range, zero_add]

/-- `variance` on a non-empty histogram is non-negative. -/
theorem variance_nonneg (h : FeatureHistogram) (mean : ℚ)
    (hc : h.number_of_elements ≠ 0) : 0 ≤ h.variance mean := by
  rw [variance_eq_sum h mean hc]
  refine div_nonneg (Finset.sum_nonneg fun bin _ => ?_) (Nat.cast_nonneg _)
  split
  · positivity
  · exact le_refl 0

/-- `variance` on a non-empty histogram never collides with the `-1`
sentinel. -/
theorem variance_ne_sentinel (h : FeatureHistogram) (mean : ℚ)
    (hc : h.number_of_elements ≠ 0) : h.variance mean ≠ -1 := by
  have := variance_nonneg h mean hc
  intro hcontra
  rw [hcontra] at this
  linarith

end FeatureHistogram

section ClaimTheorems

/- The rational-arithmetic primitives are `@[irreducible]` upstream; the
concrete witnesses evaluate histogram and grid states by `decide`, which
needs them unfolded. -/
attribute [local semireducible] Rat.mul Rat.inv Rat.add Rat.sub

set_option maxRecDepth 10000

open FeatureHistogram in
/-- Claim C3: for every histogram, `setThresholds(min, max)` with
`min >= max` mutates nothing, so `getThresholdMin`, `getThresholdMax` and
the bin width stay as before the call; with `min < max` it installs the
new range and sets the bin width to `(max - min) / number_of_bins`. -/
theorem claim_C3 (h : FeatureHistogram) (mn mx : ℚ) :
    (mx ≤ mn → h.setThresholds mn mx = h) ∧
    (mn < mx →
      (h.setThresholds mn mx).getThresholdMin = mn ∧
      (h.setThresholds mn mx).getThresholdMax = mx ∧
      (h.setThresholds mn mx).step = (mx - mn) / (h.number_of_bins : ℚ)) := by
  constructor
  · intro hle
    unfold setThresholds
    rw [if_neg (not_lt.2 hle)]
  · intro hlt
    unfold setThresholds getThresholdMin getThresholdMax
    rw [if_pos hlt]
    exact ⟨rfl, rfl, rfl⟩

/-- Witness for C3 at concrete inputs: `setThresholds(5, 3)` on the
4-bin histogram is refused without mutation, and `setThresholds(1, 3)`
installs the requested range with bin width `(3 - 1) / 4`. -/
theorem claim_C3_witness :
    ((3 : ℚ) ≤ 5 ∧
      (FeatureHistogram.construct 4).setThresholds 5 3 =
        FeatureHistogram.construct 4) ∧
    ((1 : ℚ) < 3 ∧
      ((FeatureHistogram.construct 4).setThresholds 1 3).getThresholdMin = 1 ∧
      ((FeatureHistogram.construct 4).setThresholds 1 3).getThresholdMax = 3 ∧
      ((FeatureHistogram.construct 4).setThresholds 1 3).step =
        ((3 : ℚ) - 1) / ((FeatureHistogram.construct 4).number_of_bins : ℚ)) :=
  ⟨⟨by norm_num,
    (claim_C3 (FeatureHistogram.construct 4) 5 3).1 (by norm_num)⟩,
   ⟨by norm_num,
    (claim_C3 (FeatureHistogram.construct 4) 1 3).2 (by norm_num)⟩⟩

/-- Counterexample to C4 as stated: the zero-bin histogram trace
(`construct 0`, then `setThresholds(0, 1)`, then `addValue(0.5)`) is
reachable through the public interface, yet its element count is 1 while
the sum over its (empty) bin vector is 0.  At that `addValue` the C++
code's `++histogram_[bin_number]` writes past the end of an empty
`std::vector`; no bin counter exists to receive the increment. -/
theorem claim_C4_counterexample :
    FeatureHistogram.Reachable zeroBinTrace ∧
    ¬ (zeroBinTrace.histogram.sum = zeroBinTrace.getNumberOfElements) :=
  ⟨.add_value _ _ (.set_thresholds _ _ _ (.construct 0)), by decide⟩

open FeatureHistogram in
/-- Claim C4 (amended): for every histogram constructed with at least one
bin and reachable by any sequence of construction, `setThresholds` and
`addValue` calls, the sum of all bin counters equals the element count
returned by `getNumberOfElements`. -/
theorem claim_C4 (h : FeatureHistogram) (hr : FeatureHistogram.Reachable h)
    (hb : 0 < h.getNumberOfBins) :
    h.histogram.sum = h.getNumberOfElements :=
  ((reachable_inv hr).2.2.2 hb).2.2

/-- Witness for C4 at a concrete reachable 4-bin histogram holding one
element. -/
theorem claim_C4_witness :
    0 < (exampleHist.addValue (5/2)).getNumberOfBins ∧
    (exampleHist.addValue (5/2)).histogram.sum =
      (exampleHist.addValue (5/2)).getNumberOfElements :=
  ⟨by decide,
   claim_C4 _ (.add_value _ _ (.set_thresholds _ _ _ (.construct 4)))
     (by decide)⟩

open FeatureHistogram in
/-- Claim C5: for every reachable histogram and value `v`, `addValue(v)`
with `v <= threshold_min` or `v >= threshold_max` changes neither the
element count nor any bin (the state is untouched); for `v` strictly
inside the open range it increments the element count and exactly the bin
`floor((v - threshold_min) / bin_width)`. -/
theorem claim_C5 (h : FeatureHistogram) (v : ℚ)
    (hr : FeatureHistogram.Reachable h) :
    ((v ≤ h.getThresholdMin ∨ h.getThresholdMax ≤ v) → h.addValue v = h) ∧
    (h.getThresholdMin < v → v < h.getThresholdMax →
      ∃ k : ℕ,
        (k : ℤ) = ⌊(v - h.getThresholdMin) / h.step⌋ ∧
        (h.addValue v).getNumberOfElements = h.getNumberOfElements + 1 ∧
        ∀ j, j < h.histogram.length →
          (h.addValue v).histogram.getD j 0 =
            h.histogram.getD j 0 + (if j = k then 1 else 0)) := by
  constructor
  · intro hout
    unfold addValue
    rw [if_neg]
    rintro ⟨c1, c2⟩
    rcases hout with h1 | h1
    · exact absurd c1 (not_lt.2 h1)
    · exact absurd c2 (not_lt.2 h1)
  · intro hv1 hv2
    refine ⟨ratFloorNat ((v - h.getThresholdMin) / h.step), ?_, ?_, ?_⟩
    · have hstep := (reachable_inv hr).2.1
      exact Int.toNat_of_nonneg
        (Int.floor_nonneg.2 (div_nonneg (by
          show (0 : ℚ) ≤ v - h.threshold_min
          have : h.threshold_min < v := hv1
          linarith) hstep))
    · show (h.addValue v).number_of_elements = h.number_of_elements + 1
      unfold addValue
      rw [if_pos ⟨hv1, hv2⟩]
    · intro j hj
      show (h.addValue v).histogram.getD j 0 = _
      unfold addValue
      rw [if_pos ⟨hv1, hv2⟩]
      by_cases hk : j = ratFloorNat ((v - h.getThresholdMin) / h.step)
      · rw [if_pos hk, hk]
        exact getD_listModify_self _ _ _ _ (hk ▸ hj)
      · rw [if_neg hk, add_zero]
        exact getD_listModify_ne _ _ _ _ _ hk

/-- Witness for C5 at the 4-bin `(0, 4)` histogram: `addValue(-1)` is a
no-op, and `addValue(2.5)` increments exactly bin
`floor(2.5 / 1) = 2` and the element count. -/
theorem claim_C5_witness :
    (((-1 : ℚ) ≤ exampleHist.getThresholdMin ∨
        exampleHist.getThresholdMax ≤ (-1 : ℚ)) ∧
      exampleHist.addValue (-1) = exampleHist) ∧
    (exampleHist.getThresholdMin < (5/2 : ℚ) ∧ (5/2 : ℚ) < exampleHist.getThresholdMax ∧
      ∃ k : ℕ,
        (k : ℤ) = ⌊((5/2 : ℚ) - exampleHist.getThresholdMin) / exampleHist.step⌋ ∧
        (exampleHist.addValue (5/2)).getNumberOfElements =
          exampleHist.getNumberOfElements + 1 ∧
        ∀ j, j < exampleHist.histogram.length →
          (exampleHist.addValue (5/2)).histogram.getD j 0 =
            exampleHist.histogram.getD j 0 + (if j = k then 1 else 0)) :=
  ⟨⟨Or.inl (by decide),
    (claim_C5 exampleHist (-1)
      (.set_thresholds _ _ _ (.construct 4))).1 (Or.inl (by decide))⟩,
   ⟨by decide, by decide,
    (claim_C5 exampleHist (5/2)
      (.set_thresholds _ _ _ (.construct 4))).2 (by decide) (by decide)⟩⟩

open FeatureHistogram in
/-- Claim C6: for every reachable non-empty histogram, `meanValue()`
returns `threshold_min + bin_width * k` where `k` is the lowest index
among bins with the maximal count, and the result lies in
`[threshold_min, threshold_max)` aligned to a bin boundary. -/
theorem claim_C6 (h : FeatureHistogram) (hr : FeatureHistogram.Reachable h)
    (hne : 0 < h.getNumberOfElements) :
    ∃ k : ℕ,
      h.meanValue = h.getThresholdMin + h.step * (k : ℚ) ∧
      (∀ j, j < h.histogram.length →
        h.histogram.getD j 0 ≤ h.histogram.getD k 0) ∧
      (∀ j, j < k → h.histogram.getD j 0 < h.histogram.getD k 0) ∧
      h.getThresholdMin ≤ h.meanValue ∧ h.meanValue < h.getThresholdMax := by
  obtain ⟨hlen, hstep_nn, hminmax', hbins⟩ := reachable_inv hr
  have hmm : h.threshold_min < h.threshold_max := hminmax' hne
  refine ⟨argmaxFirst h.histogram, ?_, ?_, ?_, ?_, ?_⟩
  · unfold meanValue getThresholdMin
    ring
  · intro j hj
    by_cases hb : h.histogram = []
    · rw [hb] at hj
      simp at hj
    · rw [getD_argmaxFirst h.histogram hb]
      exact le_foldr_max h.histogram _ (getD_mem h.histogram j 0 hj)
  · intro j hj
    have hb : h.histogram ≠ [] := by
      intro hnil
      rw [hnil] at hj
      unfold argmaxFirst at hj
      simp at hj
    have hjlen : j < h.histogram.length :=
      hj.trans (argmaxFirst_lt_length h.histogram hb)
    rw [getD_argmaxFirst h.histogram hb]
    exact lt_of_le_of_ne
      (le_foldr_max h.histogram _ (getD_mem h.histogram j 0 hjlen))
      (getD_ne_of_lt_indexOf h.histogram _ j hjlen hj)
  · unfold meanValue getThresholdMin
    have : 0 ≤ h.step * ((argmaxFirst h.histogram : ℕ) : ℚ) :=
      mul_nonneg hstep_nn (Nat.cast_nonneg _)
    linarith
  · by_cases hb : h.histogram = []
    · unfold meanValue
      rw [hb]
      show h.step * ((argmaxFirst [] : ℕ) : ℚ) + h.threshold_min <
        h.getThresholdMax
      unfold argmaxFirst
      simpa using hmm
    · have hbpos : 0 < h.number_of_bins := by
        rw [← hlen]
        exact List.length_pos.2 hb
      obtain ⟨_, hstep, _⟩ := hbins hbpos
      have hstep_pos : 0 < h.step := by
        rw [hstep]
        exact div_pos (by linarith) (by exact_mod_cast hbpos)
      have hklt : argmaxFirst h.histogram < h.number_of_bins := by
        rw [← hlen]
        exact argmaxFirst_lt_length h.histogram hb
      have hcast : ((argmaxFirst h.histogram : ℕ) : ℚ) <
          (h.number_of_bins : ℚ) := by exact_mod_cast hklt
      have hmul : h.step * ((argmaxFirst h.histogram : ℕ) : ℚ) <
          h.step * (h.number_of_bins : ℚ) :=
        mul_lt_mul_of_pos_left hcast hstep_pos
      have hfull : h.step * (h.number_of_bins : ℚ) =
          h.threshold_max - h.threshold_min := by
        rw [hstep]
        field_simp
      unfold meanValue
      show h.step * _ + h.threshold_min < h.threshold_max
      linarith

/-- Witness for C6 at the 4-bin `(0, 4)` histogram holding the single
value 2.5: its mode is bin 2 and `meanValue` returns 2. -/
theorem claim_C6_witness :
    0 < (exampleHist.addValue (5/2)).getNumberOfElements ∧
    ∃ k : ℕ,
      (exampleHist.addValue (5/2)).meanValue =
        (exampleHist.addValue (5/2)).getThresholdMin +
          (exampleHist.addValue (5/2)).step * (k : ℚ) ∧
      (∀ j, j < (exampleHist.addValue (5/2)).histogram.length →
        (exampleHist.addValue (5/2)).histogram.getD j 0 ≤
          (exampleHist.addValue (5/2)).histogram.getD k 0) ∧
      (∀ j, j < k →
        (exampleHist.addValue (5/2)).histogram.getD j 0 <
          (exampleHist.addValue (5/2)).histogram.getD k 0) ∧
      (exampleHist.addValue (5/2)).getThresholdMin ≤
        (exampleHist.addValue (5/2)).meanValue ∧
      (exampleHist.addValue (5/2)).meanValue <
        (exampleHist.addValue (5/2)).getThresholdMax :=
  ⟨by decide,
   claim_C6 _ (.add_value _ _ (.set_thresholds _ _ _ (.construct 4)))
     (by decide)⟩

open FeatureHistogram in
/-- Claim C7: `variance(mean)` returns exactly `-1` when the element
count is zero; otherwise it returns the sum, over every bin with a
nonzero count, of the squared difference between
`bin_count * bin_representative_value` and `mean`, divided by the element
count, and that result is non-negative. -/
theorem claim_C7 (h : FeatureHistogram) (mean : ℚ) :
    (h.getNumberOfElements = 0 → h.variance mean = -1) ∧
    (h.getNumberOfElements ≠ 0 →
      h.variance mean =
        (∑ bin ∈ Finset.range h.getNumberOfBins,
          if 0 < h.histogram.getD bin 0 then
            ((h.histogram.getD bin 0 : ℚ) *
                (h.step * (bin : ℚ) + h.getThresholdMin) - mean) ^ 2
          else 0) / (h.getNumberOfElements : ℚ) ∧
      0 ≤ h.variance mean) :=
  ⟨variance_of_empty h mean,
   fun hc => ⟨variance_eq_sum h mean hc, variance_nonneg h mean hc⟩⟩

/-- Witness for C7: the empty 3-bin histogram yields the `-1` sentinel,
and the 4-bin histogram holding 2.5 yields its non-negative spread
value. -/
theorem claim_C7_witness :
    ((FeatureHistogram.construct 3).getNumberOfElements = 0 ∧
      (FeatureHistogram.construct 3).variance 1 = -1) ∧
    ((exampleHist.addValue (5/2)).getNumberOfElements ≠ 0 ∧
      (exampleHist.addValue (5/2)).variance 2 =
        (∑ bin ∈ Finset.range (exampleHist.addValue (5/2)).getNumberOfBins,
          if 0 < (exampleHist.addValue (5/2)).histogram.getD bin 0 then
            (((exampleHist.addValue (5/2)).histogram.getD bin 0 : ℚ) *
                ((exampleHist.addValue (5/2)).step * (bin : ℚ) +
                  (exampleHist.addValue (5/2)).getThresholdMin) - 2) ^ 2
          else 0) /
          ((exampleHist.addValue (5/2)).getNumberOfElements : ℚ) ∧
      0 ≤ (exampleHist.addValue (5/2)).variance 2) :=
  ⟨⟨by decide, (claim_C7 (FeatureHistogram.construct 3) 1).1 (by decide)⟩,
   ⟨by decide, (claim_C7 (exampleHist.addValue (5/2)) 2).2 (by decide)⟩⟩

open FeatureHistogram in
/-- Claim C10: `meanValue()` on an empty histogram (element count zero,
all bins zero) is total and returns `threshold_min`, the representative
value of bin 0, since the first maximal bin among all-zero bins is the
bin at index 0. -/
theorem claim_C10 (h : FeatureHistogram)
    (_hc : h.getNumberOfElements = 0)
    (hz : ∀ x ∈ h.histogram, x = 0) :
    h.meanValue = h.getThresholdMin := by
  unfold meanValue
  rw [argmaxFirst_zero_of_all_zero h.histogram hz]
  show h.step * ((0 : ℕ) : ℚ) + h.threshold_min = h.threshold_min
  simp

/-- Witness for C10 at the freshly constructed 3-bin histogram. -/
theorem claim_C10_witness :
    (FeatureHistogram.construct 3).getNumberOfElements = 0 ∧
    (∀ x ∈ (FeatureHistogram.construct 3).histogram, x = 0) ∧
    (FeatureHistogram.construct 3).meanValue =
      (FeatureHistogram.construct 3).getThresholdMin :=
  ⟨by decide, by decide,
   claim_C10 (FeatureHistogram.construct 3) (by decide) (by decide)⟩

theorem setThresholds_number_of_elements (h : FeatureHistogram) (mn mx : ℚ) :
    (h.setThresholds mn mx).number_of_elements = h.number_of_elements := by
  unfold FeatureHistogram.setThresholds
  split <;> rfl

theorem compute_points_getD (b : DigitalElevationMapBuilder)
    (translate : Translate) (img : List RGB) (himg : b.image = some img)
    (index : ℕ)
    (hidx : index < b.resolution_column * b.resolution_disparity) :
    (b.compute translate).1.points.getD index none =
      some (b.reduceCell translate b.kColumnStepOf b.kDisparityStepOf
        (b.accumulatedHists translate img)
        (index % b.resolution_column) (index / b.resolution_column)) := by
  unfold DigitalElevationMapBuilder.compute
  rw [himg]
  exact getD_map_range _ _ _ _ hidx

theorem reduceCell_variance_iff (b : DigitalElevationMapBuilder)
    (translate : Translate) (cs : ℕ) (ds : ℚ)
    (hists : List FeatureHistogram × List FeatureHistogram)
    (ic idp : ℕ) (hmin : 1 ≤ b.min_points_in_cell) :
    ((b.reduceCell translate cs ds hists ic idp).height_variance = -1 ↔
      (hists.1.getD (ic + idp * b.resolution_column)
          (FeatureHistogram.construct 0)).getNumberOfElements <
        b.min_points_in_cell) ∧
    ((b.reduceCell translate cs ds hists ic idp).intensity_variance = -1 ↔
      ((hists.1.getD (ic + idp * b.resolution_column)
          (FeatureHistogram.construct 0)).getNumberOfElements <
        b.min_points_in_cell ∨
       (hists.2.getD (ic + idp * b.resolution_column)
          (FeatureHistogram.construct 0)).getNumberOfElements = 0)) := by
  unfold DigitalElevationMapBuilder.reduceCell
  by_cases hc : b.min_points_in_cell ≤
      (hists.1.getD (ic + idp * b.resolution_column)
        (FeatureHistogram.construct 0)).getNumberOfElements
  · rw [if_pos hc]
    have hne0 : (hists.1.getD (ic + idp * b.resolution_column)
        (FeatureHistogram.construct 0)).getNumberOfElements ≠ 0 := by
      omega
    constructor
    · exact iff_of_false
        (FeatureHistogram.variance_ne_sentinel _ _ hne0) (not_lt.2 hc)
    · by_cases hi : (hists.2.getD (ic + idp * b.resolution_column)
          (FeatureHistogram.construct 0)).number_of_elements = 0
      · exact iff_of_true
          (FeatureHistogram.variance_of_empty _ _ hi) (Or.inr hi)
      · refine iff_of_false
          (FeatureHistogram.variance_ne_sentinel _ _ hi) ?_
        rintro (hlt | hz)
        · exact absurd hc (not_le.2 hlt)
        · exact hi hz
  · rw [if_neg hc]
    constructor
    · exact iff_of_true rfl (not_le.1 hc)
    · exact iff_of_true rfl (Or.inl (not_le.1 hc))

theorem reduceCell_of_invalid (b : DigitalElevationMapBuilder)
    (translate : Translate) (cs : ℕ) (ds : ℚ)
    (hists : List FeatureHistogram × List FeatureHistogram) (ic idp : ℕ)
    (hcount : (hists.1.getD (ic + idp * b.resolution_column)
        (FeatureHistogram.construct 0)).getNumberOfElements <
      b.min_points_in_cell) :
    b.reduceCell translate cs ds hists ic idp =
      { x := (translate 0 (ic * cs)
          (b.disparity_threshold_min + (idp : ℚ) * ds)).x,
        y := 0,
        z := (translate 0 (ic * cs)
          (b.disparity_threshold_min + (idp : ℚ) * ds)).z,
        intensity := 255,
        height_variance := -1,
        intensity_variance := -1 } := by
  unfold DigitalElevationMapBuilder.reduceCell
  rw [if_neg (not_le.2 hcount)]

/-- Counterexample to C1 as stated: with no image source attached,
`compute` does report the error, but the caller's out-parameter is not
left unset — at function entry, before the image precondition is checked,
it has already been re-assigned to a freshly allocated
`resolution_column × resolution_disparity` cloud. -/
theorem claim_C1_counterexample :
    noImageBuilder.image = none ∧
    (noImageBuilder.computeUpd zeroTranslate none).2 = true ∧
    (noImageBuilder.computeUpd zeroTranslate none).1 ≠ none :=
  ⟨rfl, rfl, by decide⟩

/-- Claim C1 (amended): if no image source is attached when `compute` is
called, it reports the error and returns before the accumulation pass;
the output parameter has nevertheless been re-assigned to a freshly
allocated grid of `resolution_column × resolution_disparity` cells, none
of which has been written. -/
theorem claim_C1 (b : DigitalElevationMapBuilder) (translate : Translate)
    (himg : b.image = none) :
    (b.compute translate).2 = true ∧
    (b.compute translate).1.width = b.resolution_column ∧
    (b.compute translate).1.height = b.resolution_disparity ∧
    (b.compute translate).1.points =
      List.replicate (b.resolution_column * b.resolution_disparity) none := by
  unfold DigitalElevationMapBuilder.compute
  rw [himg]
  exact ⟨rfl, rfl, rfl, rfl⟩

/-- Witness for C1 at the concrete no-image builder. -/
theorem claim_C1_witness :
    noImageBuilder.image = none ∧
    ((noImageBuilder.compute zeroTranslate).2 = true ∧
     (noImageBuilder.compute zeroTranslate).1.width =
       noImageBuilder.resolution_column ∧
     (noImageBuilder.compute zeroTranslate).1.height =
       noImageBuilder.resolution_disparity ∧
     (noImageBuilder.compute zeroTranslate).1.points =
       List.replicate
         (noImageBuilder.resolution_column *
           noImageBuilder.resolution_disparity) none) :=
  ⟨rfl, claim_C1 noImageBuilder zeroTranslate rfl⟩

/-- Counterexample to C2 as stated: with the default
`min_points_in_cell = 1`, a single in-window pixel with black color is
routed to cell 0, so the cell receives one accepted sample — not fewer
than `min_points_in_cell` — yet the produced cell's `intensity_variance`
is the `-1` sentinel: the pixel's intensity `(0+0+0)/3 = 0` is dropped by
the intensity histogram's open range `(0, 255)`, and the cell-validity
test consults only the height histogram. -/
theorem claim_C2_counterexample :
    blackPixelBuilder.min_points_in_cell = 1 ∧
    blackPixelBuilder.acceptedCount 0 = 1 ∧
    Option.map PointDEM.intensity_variance
        ((blackPixelBuilder.compute constHalfTranslate).1.points.getD 0 none) =
      some (-1) :=
  ⟨rfl, by decide, by decide⟩

/-- Claim C2 (amended): for every produced grid cell, assuming
`min_points_in_cell >= 1` (its default is 1): `height_variance` is `-1`
iff the cell's height histogram holds fewer than `min_points_in_cell`
values, and `intensity_variance` is `-1` iff that height condition holds
or the cell's intensity histogram holds no value.  (Each histogram also
drops samples whose value falls outside its own open range, so these
histogram counts can be smaller than the number of disparity-accepted
samples routed to the cell.) -/
theorem claim_C2 (b : DigitalElevationMapBuilder) (translate : Translate)
    (img : List RGB) (himg : b.image = some img)
    (hmin : 1 ≤ b.min_points_in_cell) (index : ℕ)
    (hidx : index < b.resolution_column * b.resolution_disparity) :
    ∃ p : PointDEM,
      (b.compute translate).1.points.getD index none = some p ∧
      (p.height_variance = -1 ↔
        ((b.accumulatedHists translate img).1.getD index
            (FeatureHistogram.construct 0)).getNumberOfElements <
          b.min_points_in_cell) ∧
      (p.intensity_variance = -1 ↔
        (((b.accumulatedHists translate img).1.getD index
            (FeatureHistogram.construct 0)).getNumberOfElements <
          b.min_points_in_cell ∨
         ((b.accumulatedHists translate img).2.getD index
            (FeatureHistogram.construct 0)).getNumberOfElements = 0)) := by
  have hcell := compute_points_getD b translate img himg index hidx
  have hiff := reduceCell_variance_iff b translate b.kColumnStepOf
    b.kDisparityStepOf (b.accumulatedHists translate img)
    (index % b.resolution_column) (index / b.resolution_column) hmin
  rw [Nat.mod_add_div'] at hiff
  exact ⟨_, hcell, hiff.1, hiff.2⟩

/-- Witness for C2 at the concrete black-pixel builder, cell 0. -/
theorem claim_C2_witness :
    blackPixelBuilder.image = some [⟨0, 0, 0⟩] ∧
    1 ≤ blackPixelBuilder.min_points_in_cell ∧
    0 < blackPixelBuilder.resolution_column *
        blackPixelBuilder.resolution_disparity ∧
    ∃ p : PointDEM,
      (blackPixelBuilder.compute constHalfTranslate).1.points.getD 0 none =
        some p ∧
      (p.height_variance = -1 ↔
        ((blackPixelBuilder.accumulatedHists constHalfTranslate
            [⟨0, 0, 0⟩]).1.getD 0
            (FeatureHistogram.construct 0)).getNumberOfElements <
          blackPixelBuilder.min_points_in_cell) ∧
      (p.intensity_variance = -1 ↔
        (((blackPixelBuilder.accumulatedHists constHalfTranslate
            [⟨0, 0, 0⟩]).1.getD 0
            (FeatureHistogram.construct 0)).getNumberOfElements <
          blackPixelBuilder.min_points_in_cell ∨
         ((blackPixelBuilder.accumulatedHists constHalfTranslate
            [⟨0, 0, 0⟩]).2.getD 0
            (FeatureHistogram.construct 0)).getNumberOfElements = 0)) :=
  ⟨rfl, by decide, by decide,
   claim_C2 blackPixelBuilder constHalfTranslate [⟨0, 0, 0⟩] rfl (by decide)
     0 (by decide)⟩

/-- Claim C8: during the accumulation pass of `compute`, a pixel
`(column, row)` whose disparity lies strictly inside
`(disparity_threshold_min, disparity_threshold_max)` has its height and
intensity inserted into the histogram pair at the single flat index
`column / column_step + index_disparity * resolution_column`, where
`column_step = (disparity_map_width - 1) / resolution_column + 1` (the
value `kColumnStepOf`) and `index_disparity = floor((disparity -
disparity_threshold_min) / disparity_step)` with `disparity_step =
(disparity_threshold_max - disparity_threshold_min) /
resolution_disparity` (the value `kDisparityStepOf`); a pixel whose
disparity is outside that open window affects no histogram. -/
theorem claim_C8 (b : DigitalElevationMapBuilder) (translate : Translate)
    (img : List RGB) (hh ih : List FeatureHistogram) (column row : ℕ)
    (_hcol : column < b.disparity_map_width)
    (_hrow : row < b.disparity_map_height)
    (_hrc : 0 < b.resolution_column) :
    (b.disparity_threshold_min <
        b.disparity_map.getD (column + row * b.disparity_map_width) 0 ∧
      b.disparity_map.getD (column + row * b.disparity_map_width) 0 <
        b.disparity_threshold_max →
      ∃ index_disparity : ℕ,
        (index_disparity : ℤ) =
          ⌊(b.disparity_map.getD (column + row * b.disparity_map_width) 0 -
              b.disparity_threshold_min) / b.kDisparityStepOf⌋ ∧
        b.accumStep translate img b.kColumnStepOf b.kDisparityStepOf
            (hh, ih) (column, row) =
          (listModify
            (fun h => h.addValue
              (translate row column
                (b.disparity_map.getD
                  (column + row * b.disparity_map_width) 0)).y)
            (column / b.kColumnStepOf +
              index_disparity * b.resolution_column) hh,
           listModify
            (fun h => h.addValue
              ((((img.getD (column + row * b.disparity_map_width)
                    ⟨0, 0, 0⟩).r +
                  (img.getD (column + row * b.disparity_map_width)
                    ⟨0, 0, 0⟩).g +
                  (img.getD (column + row * b.disparity_map_width)
                    ⟨0, 0, 0⟩).b) / 3 : ℕ) : ℚ))
            (column / b.kColumnStepOf +
              index_disparity * b.resolution_column) ih)) ∧
    (¬ (b.disparity_threshold_min <
          b.disparity_map.getD (column + row * b.disparity_map_width) 0 ∧
        b.disparity_map.getD (column + row * b.disparity_map_width) 0 <
          b.disparity_threshold_max) →
      b.accumStep translate img b.kColumnStepOf b.kDisparityStepOf
          (hh, ih) (column, row) = (hh, ih)) := by
  constructor
  · intro hw
    refine ⟨ratFloorNat
      ((b.disparity_map.getD (column + row * b.disparity_map_width) 0 -
          b.disparity_threshold_min) / b.kDisparityStepOf), ?_, ?_⟩
    · have h1 : (0 : ℚ) ≤
          b.disparity_map.getD (column + row * b.disparity_map_width) 0 -
            b.disparity_threshold_min := by
        have := hw.1
        linarith
      have h2 : (0 : ℚ) ≤ b.kDisparityStepOf := by
        unfold DigitalElevationMapBuilder.kDisparityStepOf
        have := hw.1.trans hw.2
        exact div_nonneg (by linarith) (Nat.cast_nonneg _)
      exact Int.toNat_of_nonneg (Int.floor_nonneg.2 (div_nonneg h1 h2))
    · unfold DigitalElevationMapBuilder.accumStep
      rw [if_pos hw]
  · intro hnw
    unfold DigitalElevationMapBuilder.accumStep
    rw [if_neg hnw]

/-- Witness for C8: the black-pixel builder's single pixel (disparity 1,
inside `(0, 4)`) is routed to flat index 0, and the background builder's
single pixel (disparity 0, on the lower bound) changes nothing. -/
theorem claim_C8_witness :
    ((0 : ℕ) < blackPixelBuilder.disparity_map_width ∧
      (0 : ℕ) < blackPixelBuilder.disparity_map_height ∧
      0 < blackPixelBuilder.resolution_column ∧
      ∃ index_disparity : ℕ,
        (index_disparity : ℤ) =
          ⌊(blackPixelBuilder.disparity_map.getD
              (0 + 0 * blackPixelBuilder.disparity_map_width) 0 -
              blackPixelBuilder.disparity_threshold_min) /
            blackPixelBuilder.kDisparityStepOf⌋ ∧
        blackPixelBuilder.accumStep constHalfTranslate [⟨0, 0, 0⟩]
            blackPixelBuilder.kColumnStepOf
            blackPixelBuilder.kDisparityStepOf
            ([DigitalElevationMapBuilder.height_histogram_example],
             [DigitalElevationMapBuilder.intensity_histogram_example])
            (0, 0) =
          (listModify
            (fun h => h.addValue
              (constHalfTranslate 0 0
                (blackPixelBuilder.disparity_map.getD
                  (0 + 0 * blackPixelBuilder.disparity_map_width) 0)).y)
            (0 / blackPixelBuilder.kColumnStepOf +
              index_disparity * blackPixelBuilder.resolution_column)
            [DigitalElevationMapBuilder.height_histogram_example],
           listModify
            (fun h => h.addValue
              (((([⟨0, 0, 0⟩] : List RGB).getD
                    (0 + 0 * blackPixelBuilder.disparity_map_width)
                    ⟨0, 0, 0⟩).r +
                  (([⟨0, 0, 0⟩] : List RGB).getD
                    (0 + 0 * blackPixelBuilder.disparity_map_width)
                    ⟨0, 0, 0⟩).g +
                  (([⟨0, 0, 0⟩] : List RGB).getD
                    (0 + 0 * blackPixelBuilder.disparity_map_width)
                    ⟨0, 0, 0⟩).b) / 3 : ℕ))
            (0 / blackPixelBuilder.kColumnStepOf +
              index_disparity * blackPixelBuilder.resolution_column)
            [DigitalElevationMapBuilder.intensity_histogram_example])) ∧
    (backgroundBuilder.accumStep zeroTranslate [⟨0, 0, 0⟩]
        backgroundBuilder.kColumnStepOf backgroundBuilder.kDisparityStepOf
        ([DigitalElevationMapBuilder.height_histogram_example],
         [DigitalElevationMapBuilder.intensity_histogram_example])
        (0, 0) =
      ([DigitalElevationMapBuilder.height_histogram_example],
       [DigitalElevationMapBuilder.intensity_histogram_example])) :=
  ⟨⟨by decide, by decide, by decide,
    (claim_C8 blackPixelBuilder constHalfTranslate [⟨0, 0, 0⟩]
      [DigitalElevationMapBuilder.height_histogram_example]
      [DigitalElevationMapBuilder.intensity_histogram_example] 0 0
      (by decide) (by decide) (by decide)).1 (by decide)⟩,
   (claim_C8 backgroundBuilder zeroTranslate [⟨0, 0, 0⟩]
      [DigitalElevationMapBuilder.height_histogram_example]
      [DigitalElevationMapBuilder.intensity_histogram_example] 0 0
      (by decide) (by decide) (by decide)).2 (by decide)⟩

/-- Claim C9: on an all-background input (every disparity at most
`disparity_threshold_min`) with the default `min_points_in_cell = 1`,
every produced grid cell carries the invalid-cell defaults
`y = 0`, `intensity = 255`, `height_variance = -1`,
`intensity_variance = -1`. -/
theorem claim_C9 (b : DigitalElevationMapBuilder) (translate : Translate)
    (img : List RGB) (himg : b.image = some img)
    (hlen : b.disparity_map.length =
      b.disparity_map_width * b.disparity_map_height)
    (hbg : ∀ d ∈ b.disparity_map, d ≤ b.disparity_threshold_min)
    (hmin : b.min_points_in_cell = 1) :
    ∀ i, i < (b.compute translate).1.points.length →
      ∃ p : PointDEM,
        (b.compute translate).1.points.getD i none = some p ∧
        p.y = 0 ∧ p.intensity = 255 ∧
        p.height_variance = -1 ∧ p.intensity_variance = -1 := by
  have hacc : b.accumulatedHists translate img =
      (List.replicate (b.resolution_column * b.resolution_disparity)
         DigitalElevationMapBuilder.height_histogram_example,
       List.replicate (b.resolution_column * b.resolution_disparity)
         DigitalElevationMapBuilder.intensity_histogram_example) := by
    unfold DigitalElevationMapBuilder.accumulatedHists
    refine foldl_fixed _ _ ?_ _
    intro acc pix hpix
    obtain ⟨c, hc, hpm⟩ := List.mem_flatMap.1 hpix
    obtain ⟨r, hr, rfl⟩ := List.mem_map.1 hpm
    have hcw : c < b.disparity_map_width := List.mem_range.1 hc
    have hrh : r < b.disparity_map_height := List.mem_range.1 hr
    have hidxlt : c + r * b.disparity_map_width < b.disparity_map.length := by
      rw [hlen]
      calc c + r * b.disparity_map_width
          < b.disparity_map_width + r * b.disparity_map_width := by omega
        _ = (r + 1) * b.disparity_map_width := by ring
        _ ≤ b.disparity_map_height * b.disparity_map_width :=
            Nat.mul_le_mul_right _ (by omega)
        _ = b.disparity_map_width * b.disparity_map_height :=
            Nat.mul_comm _ _
    have hd := hbg _ (getD_mem _ _ (0 : ℚ) hidxlt)
    unfold DigitalElevationMapBuilder.accumStep
    rw [if_neg]
    rintro ⟨hgt, _⟩
    exact absurd hgt (not_lt.2 hd)
  intro i hi
  have hilen : i < b.resolution_column * b.resolution_disparity := by
    have : (b.compute translate).1.points.length =
        b.resolution_column * b.resolution_disparity := by
      unfold DigitalElevationMapBuilder.compute
      rw [himg]
      simp
    rwa [this] at hi
  have hcell := compute_points_getD b translate img himg i hilen
  have hcount : ((b.accumulatedHists translate img).1.getD
      (i % b.resolution_column +
        i / b.resolution_column * b.resolution_column)
      (FeatureHistogram.construct 0)).getNumberOfElements <
      b.min_points_in_cell := by
    rw [hacc, Nat.mod_add_div']
    rw [getD_replicate_of_lt _ _ _ _ hilen]
    show (DigitalElevationMapBuilder.height_histogram_example).number_of_elements < _
    unfold DigitalElevationMapBuilder.height_histogram_example
    rw [setThresholds_number_of_elements, hmin]
    show 0 < 1
    omega
  rw [reduceCell_of_invalid b translate _ _ _ _ _ hcount] at hcell
  exact ⟨_, hcell, rfl, rfl, rfl, rfl⟩

/-- Witness for C9 at the concrete all-background builder. -/
theorem claim_C9_witness :
    backgroundBuilder.image = some [⟨0, 0, 0⟩] ∧
    backgroundBuilder.disparity_map.length =
      backgroundBuilder.disparity_map_width *
        backgroundBuilder.disparity_map_height ∧
    (∀ d ∈ backgroundBuilder.disparity_map,
      d ≤ backgroundBuilder.disparity_threshold_min) ∧
    backgroundBuilder.min_points_in_cell = 1 ∧
    ∀ i, i < (backgroundBuilder.compute zeroTranslate).1.points.length →
      ∃ p : PointDEM,
        (backgroundBuilder.compute zeroTranslate).1.points.getD i none =
          some p ∧
        p.y = 0 ∧ p.intensity = 255 ∧
        p.height_variance = -1 ∧ p.intensity_variance = -1 :=
  ⟨rfl, rfl, by decide, rfl,
   claim_C9 backgroundBuilder zeroTranslate [⟨0, 0, 0⟩] rfl rfl
     (by decide) rfl⟩

end ClaimTheorems

end DigitalElevationMap
